import Mathlib

/-!
Verification of the geometry-canonicalization and field-constraint core of the
IDF-Agent repository (`src/validator/data_model.py`), as a shallow embedding.

Conventions of the embedding:
* Python floats are modelled as exact real numbers (`ℝ`); where a statement is
  evaluated on concrete inputs we instantiate generic definitions at `ℚ`.
* A numpy `(n,3)` array of vertices is a `List (V3 ℝ)`.
* `np.mean(_, axis=0)`, `np.cross`, `np.dot`, `np.linalg.norm` become `meanV`,
  `cross3`, `dot3`, `norm3`.
* CPython `sorted` with `cmp_to_key` is embedded by `pySorted`: run detection
  (`countRun`) followed by binary insertion (`binInsertAll`), which is exactly
  CPython's list sort for lists of fewer than 64 elements (every surface here);
  the binary search matches `binarysort` in CPython's `listobject.c`.
* Exceptions become `Except` values; the distinct `ValueError`s raised by the
  validator are the constructors of the error types below.
-/

namespace IDF

/-- A 3-component vector, the row of a numpy vertex array. -/
structure V3 (α : Type) where
  x : α
  y : α
  z : α
deriving DecidableEq, Repr

/-- Componentwise subtraction of vectors, `a - b` on numpy arrays. -/
def vsub {α : Type} [Sub α] (a b : V3 α) : V3 α :=
  ⟨a.x - b.x, a.y - b.y, a.z - b.z⟩

/-- Scalar multiplication `c * v`, used for division by a norm or a length. -/
def smul3 {α : Type} [Mul α] (c : α) (v : V3 α) : V3 α :=
  ⟨c * v.x, c * v.y, c * v.z⟩

/-- `np.dot` on 3-vectors. -/
def dot3 {α : Type} [CommRing α] (a b : V3 α) : α :=
  a.x * b.x + a.y * b.y + a.z * b.z

/-- `np.cross` on 3-vectors. -/
def cross3 {α : Type} [CommRing α] (a b : V3 α) : V3 α :=
  ⟨a.y * b.z - a.z * b.y, a.z * b.x - a.x * b.z, a.x * b.y - a.y * b.x⟩

/-- The zero vector. -/
def v0 {α : Type} [CommRing α] : V3 α := ⟨0, 0, 0⟩

/-- Componentwise sum of a list of vectors (`np.sum(_, axis=0)`). -/
def vsum {α : Type} [CommRing α] (l : List (V3 α)) : V3 α :=
  ⟨(l.map V3.x).sum, (l.map V3.y).sum, (l.map V3.z).sum⟩

/-- `np.mean(points, axis=0)`: componentwise sum divided by the length. -/
def meanV {α : Type} [Field α] (l : List (V3 α)) : V3 α :=
  smul3 ((l.length : α))⁻¹ (vsum l)

/-- `np.linalg.norm` of a 3-vector over the reals. -/
noncomputable def norm3 (v : V3 ℝ) : ℝ := Real.sqrt (dot3 v v)

/-- `v / np.linalg.norm(v)`, the unit vector along `v`. -/
noncomputable def normalize3 (v : V3 ℝ) : V3 ℝ := smul3 (norm3 v)⁻¹ v

/-- Euclidean distance between two points. -/
noncomputable def dist3 (a b : V3 ℝ) : ℝ := norm3 (vsub a b)

/-! ## `BaseSchema.validate_choice_field` (data_model.py lines 84-99) -/

/-- Result of `validate_choice_field`: either the canonical value together with
whether the non-fatal case-normalization notice was logged, or the
`ValueError`, which names the offending field and the full legal set. -/
inductive ChoiceOutcome where
  | ok (result : String) (noticed : Bool)
  | invalid (field : String) (choices : List String)
deriving DecidableEq, Repr

/-- Python `str.lower` on the ASCII strings of the domain dictionary:
lowercase every character.  (`String.toLower` is the same map; this spelling
keeps the definition transparent to kernel reduction.) -/
def pyLower (s : String) : String := ⟨s.data.map Char.toLower⟩

/-- The dict comprehension `{choice.lower(): choice for choice in valid_choices}`
looked up at key `k`: the LAST choice whose lowercasing is `k` wins, because a
later duplicate key overwrites an earlier one in a dict comprehension. -/
def choiceMapping (validChoices : List String) (k : String) : Option String :=
  (validChoices.filter (fun c => pyLower c == k)).getLast?

/-- `BaseSchema.validate_choice_field`.  Python `str.lower` is modelled by
`pyLower` (all legal values in the dictionary are ASCII).  The boolean
in the `ok` constructor records whether `value not in valid_choices`, i.e.
whether the warning notice was emitted. -/
def validate_choice_field (value : String) (validChoices : List String)
    (fieldName : String) : ChoiceOutcome :=
  match choiceMapping validChoices (pyLower value) with
  | Option.none => ChoiceOutcome.invalid fieldName validChoices
  | Option.some canon => ChoiceOutcome.ok canon (!(validChoices.contains value))

/-! ## `IDDField.__init__` (data_model.py lines 20-60) -/

/-- The subset of Python values that reach `IDDField.__init__`: strings,
numbers, lists and string-keyed dicts (JSON-shaped data), plus `None`. -/
inductive PyVal where
  | str (s : String)
  | num (q : ℚ)
  | list (items : List PyVal)
  | dict (entries : List (String × PyVal))
  | none

/-- Python truthiness for the values above. -/
def pyTruthy : PyVal → Bool
  | PyVal.str s => s != ""
  | PyVal.num q => q != 0
  | PyVal.list items => !items.isEmpty
  | PyVal.dict entries => !entries.isEmpty
  | PyVal.none => false

/-- `IDDField._clean_key`: replace each of space, hyphen, slash, colon with an
underscore (each replacement is a single character, so the four sequential
`str.replace` calls equal one character map). -/
def cleanKey (key : String) : String :=
  String.map (fun c => if c = ' ' ∨ c = '-' ∨ c = '/' ∨ c = ':' then '_' else c) key

/-- The attribute tree built by `IDDField.__init__`: `setattr` either stores a
nested `IDDField` (node) or a raw value (leaf). -/
inductive IDDNode where
  | node (attrs : List (String × IDDNode))
  | leaf (v : PyVal)

/-- `setattr` on the attribute list: overwrite an existing attribute in place,
otherwise append (Python attribute dicts preserve insertion order). -/
def setAttr : List (String × IDDNode) → String → IDDNode → List (String × IDDNode)
  | [], k, v => [(k, v)]
  | (k0, v0) :: rest, k, v =>
      if k0 = k then (k, v) :: rest else (k0, v0) :: setAttr rest k v

/-- Outcome of extracting a descriptor name: skipped silently, a usable name,
or an uncaught exception (`_clean_key` called on a non-string). -/
inductive NameRes where
  | skip
  | name (s : String)
  | crash (msg : String)

/-- The name of an object descriptor: `obj[0].get("idfobj", None)` followed by
the truthiness test.  A missing or falsy name is skipped; a truthy non-string
would crash `_clean_key`. -/
def idfobjName : PyVal → NameRes
  | PyVal.dict es =>
      match es.lookup "idfobj" with
      | Option.some (PyVal.str s) => if s = "" then NameRes.skip else NameRes.name s
      | Option.some v =>
          if pyTruthy v then NameRes.crash "clean_key called on a non-string" else NameRes.skip
      | Option.none => NameRes.skip
  | _ => NameRes.skip

/-- The name of a field descriptor: `obj.get("field", None)`; a truthy
non-empty list uses its first element (which must be a string), a truthy
string is used directly, any other truthy value hits `continue`, and a falsy
value fails the outer `if` — both of the latter silently skip the entry. -/
def fieldNameOf (entries : List (String × PyVal)) : NameRes :=
  match entries.lookup "field" with
  | Option.some (PyVal.str s) => if s = "" then NameRes.skip else NameRes.name s
  | Option.some (PyVal.list (PyVal.str s :: _)) => NameRes.name s
  | Option.some (PyVal.list (_ :: _)) => NameRes.crash "clean_key called on a non-string"
  | Option.some (PyVal.list []) => NameRes.skip
  | Option.some _ => NameRes.skip
  | Option.none => NameRes.skip

/-- One pass of the constructor body for list data (`IDDField.__init__`, list
branch): process the entries in order, threading the attribute list through
`setattr`.  A sublist entry recurses on its tail (`IDDField(obj[1:])`); a dict
entry builds a nested field from the same dict (`IDDField(obj)`), whose dict
branch copies the (possibly singleton-unwrapped) raw values. -/
def buildDictAttrs (acc : List (String × IDDNode)) :
    List (String × PyVal) → List (String × IDDNode)
  | [] => acc
  | (k, v) :: rest =>
      let v' := match v with
        | PyVal.list [single] => single
        | other => other
      buildDictAttrs (setAttr acc (cleanKey k) (IDDNode.leaf v')) rest

/-- The list branch of `IDDField.__init__` as a fold over the entries, with
the recursive `IDDField(obj[1:])` call for object descriptors. -/
def buildListAttrs (acc : List (String × IDDNode)) :
    List PyVal → Except String (List (String × IDDNode))
  | [] => Except.ok acc
  | PyVal.list [] :: rest => buildListAttrs acc rest
  | PyVal.list (first :: objTail) :: rest =>
      (match idfobjName first with
       | NameRes.skip => buildListAttrs acc rest
       | NameRes.crash msg => Except.error msg
       | NameRes.name s => do
           let sub ← buildListAttrs [] objTail
           buildListAttrs (setAttr acc (cleanKey s) (IDDNode.node sub)) rest)
  | PyVal.dict entries :: rest =>
      (match fieldNameOf entries with
       | NameRes.skip => buildListAttrs acc rest
       | NameRes.crash msg => Except.error msg
       | NameRes.name s =>
           buildListAttrs
             (setAttr acc (cleanKey s) (IDDNode.node (buildDictAttrs [] entries))) rest)
  | _ :: rest => buildListAttrs acc rest
termination_by l => sizeOf l
decreasing_by all_goals (simp_wf <;> omega)

/-- `IDDField(data)`: dispatch on the top-level shape.  Non-list non-dict data
constructs an empty field (the constructor body does nothing). -/
def iddBuild : PyVal → Except String IDDNode
  | PyVal.list items => (buildListAttrs [] items).map IDDNode.node
  | PyVal.dict entries => Except.ok (IDDNode.node (buildDictAttrs [] entries))
  | _ => Except.ok (IDDNode.node [])

/-! ## `SurfaceSchema.validate_vertices` (lines 412-431) and
`FenestrationSurfaceSchema.validate_vertices` (lines 855-873) -/

/-- Input to the `mode="before"` vertices validator: either an already
materialized numpy array, or the raw list of `{"X":…,"Y":…,"Z":…}` mappings
(each mapping is just its three coordinates). -/
inductive VerticesInput where
  | arr (pts : List (V3 ℝ))
  | raw (pts : List (V3 ℝ))

/-- The `ValueError`s a vertices validator can raise. -/
inductive VertError where
  | insufficient (n : Nat)
  | tooClose
deriving DecidableEq, Repr

/-- Some pair of distinct vertex indices is closer than the 1e-10 tolerance
(the pairwise distance matrix with an `inf` diagonal has an entry below
tolerance). -/
def hasClosePair (pts : List (V3 ℝ)) : Prop :=
  ∃ i j, i < pts.length ∧ j < pts.length ∧ i ≠ j ∧
    dist3 (pts.getD i v0) (pts.getD j v0) < 1 / 10 ^ 10

open Classical in
/-- `SurfaceSchema.validate_vertices`: a numpy array is returned unchanged at
once; a raw list is length-checked, materialized, and pairwise
closeness-checked (the surface variant logs every close pair and then raises
one generic `ValueError`). -/
noncomputable def surface_validate_vertices : VerticesInput → Except VertError (List (V3 ℝ))
  | VerticesInput.arr pts => Except.ok pts
  | VerticesInput.raw pts =>
      if pts.length < 3 then Except.error (VertError.insufficient pts.length)
      else if hasClosePair pts then Except.error VertError.tooClose
      else Except.ok pts

open Classical in
/-- `FenestrationSurfaceSchema.validate_vertices`: identical control flow; the
only difference in the source is that the fenestration variant raises inside
the loop at the first close pair instead of logging them all first. -/
noncomputable def fenestration_validate_vertices :
    VerticesInput → Except VertError (List (V3 ℝ))
  | VerticesInput.arr pts => Except.ok pts
  | VerticesInput.raw pts =>
      if pts.length < 3 then Except.error (VertError.insufficient pts.length)
      else if hasClosePair pts then Except.error VertError.tooClose
      else Except.ok pts

/-! ## `GeometrySchema.validate_geometry_closure` (lines 909-922) -/

/-- `np.round(x, 8)` on an exact scalar: scale by `10 ^ 8`, round to the
nearest integer, and scale back (Mathlib's `round` rounds half away from the
floor; numpy rounds half to even — the two agree except on exact half-ties at
the eighth decimal, which no claim exercises). -/
def round8 {α : Type} [LinearOrderedField α] [FloorRing α] (q : α) : α :=
  (round (q * 10 ^ 8) : ℤ) / 10 ^ 8

/-- Componentwise `np.round(_, 8)` of a vertex row. -/
def roundV8 {α : Type} [LinearOrderedField α] [FloorRing α] (v : V3 α) : V3 α :=
  ⟨round8 v.x, round8 v.y, round8 v.z⟩

/-- The offending vertices of the closure check: stack every surface's
vertices (`np.vstack`), round to 8 decimals, and collect every unique row
whose multiplicity is below 3.  `np.unique(..., return_counts=True)` is the
deduplicated rows with their counts. -/
def closureViolations {α : Type} [LinearOrderedField α] [FloorRing α] [DecidableEq α]
    (surfaces : List (List (V3 α))) : List (V3 α) :=
  let pts := surfaces.flatten.map roundV8
  pts.dedup.filter (fun p => pts.count p < 3)

/-! ## CPython `sorted` with `cmp_to_key` (used at line 990) -/

/-- Longest ascending continuation: extend while `not (cmp next cur < 0)`. -/
def ascRun {α : Type} (cmp : α → α → Int) : α → List α → List α × List α
  | _, [] => ([], [])
  | prev, x :: rest =>
      if cmp x prev < 0 then ([], x :: rest)
      else (x :: (ascRun cmp x rest).1, (ascRun cmp x rest).2)

/-- Longest strictly descending continuation: extend while `cmp next cur < 0`. -/
def descRun {α : Type} (cmp : α → α → Int) : α → List α → List α × List α
  | _, [] => ([], [])
  | prev, x :: rest =>
      if cmp x prev < 0 then (x :: (descRun cmp x rest).1, (descRun cmp x rest).2)
      else ([], x :: rest)

/-- CPython `count_run`: detect the initial run, reversing a strictly
descending one. -/
def countRun {α : Type} (cmp : α → α → Int) : List α → List α × List α
  | [] => ([], [])
  | [x] => ([x], [])
  | x :: y :: rest =>
      if cmp y x < 0 then
        ((x :: y :: (descRun cmp y rest).1).reverse, (descRun cmp y rest).2)
      else (x :: y :: (ascRun cmp y rest).1, (ascRun cmp y rest).2)

/-- The binary search of CPython `binarysort`: narrow `[lo, hi)` with
`if pivot < a[mid] then hi := mid else lo := mid + 1`; equal elements end up
after existing ones (stability). -/
def binSearchPos {α : Type} (cmp : α → α → Int) (pivot : α) (arr : List α)
    (lo hi : Nat) : Nat :=
  if _h : lo < hi then
    if cmp pivot (arr.getD ((lo + hi) / 2) pivot) < 0 then
      binSearchPos cmp pivot arr lo ((lo + hi) / 2)
    else binSearchPos cmp pivot arr ((lo + hi) / 2 + 1) hi
  else lo
termination_by hi - lo
decreasing_by all_goals omega

/-- Insert each remaining element into the sorted prefix at its binary-search
position. -/
def binInsertAll {α : Type} (cmp : α → α → Int) : List α → List α → List α
  | sorted, [] => sorted
  | sorted, x :: rest =>
      binInsertAll cmp (sorted.insertIdx (binSearchPos cmp x sorted 0 sorted.length) x) rest

/-- CPython `list.sort` under a comparator, for lists of fewer than 64
elements (every surface in this repository): one `count_run`, then binary
insertion of the remainder.  (For 64 or more elements CPython additionally
merges runs; no claim here exercises that regime.) -/
def pySorted {α : Type} (cmp : α → α → Int) (l : List α) : List α :=
  binInsertAll cmp (countRun cmp l).1 (countRun cmp l).2

/-! ## `GeometrySchema._sort_vertices_clockwise` (lines 962-994) and
`_get_top_left_corner_from_normal` (lines 1014-1040) -/

open Classical in
/-- The `compare_points` closure, on vertex values: `v1, v2` are the two
points relative to the centroid, `sign` the projection of their cross product
on the unit normal; ties within `1e-10` fall back to distance from the
centroid (`-1 if d1 < d2 else 1`). -/
noncomputable def comparePoints (normal centroid : V3 ℝ) (p q : V3 ℝ) : Int :=
  let v1 := vsub p centroid
  let v2 := vsub q centroid
  let sign := dot3 (cross3 v1 v2) normal
  if sign > 1 / 10 ^ 10 then -1
  else if sign < -(1 / 10 ^ 10) then 1
  else if norm3 v1 < norm3 v2 then -1 else 1

open Classical in
/-- The world-up axis of `_get_top_left_corner_from_normal`: `+Z`, replaced by
`+Y`/`-Y` when the unit normal is within 0.99 cosine of vertical. -/
noncomputable def worldUpOf (normal : V3 ℝ) : V3 ℝ :=
  if |dot3 normal ⟨0, 0, 1⟩| > 99 / 100 then
    (if dot3 normal ⟨0, 0, 1⟩ > 0 then ⟨0, 1, 0⟩ else ⟨0, -1, 0⟩)
  else ⟨0, 0, 1⟩

/-- The local frame of `_get_top_left_corner_from_normal`:
`right = cross(world_up, normal)` and `up = cross(normal, right)`, both
normalized, for the unit normal of `nv`. -/
noncomputable def frameOf (nv : V3 ℝ) : V3 ℝ × V3 ℝ :=
  (normalize3 (cross3 (worldUpOf (normalize3 nv)) (normalize3 nv)),
   normalize3 (cross3 (normalize3 nv)
     (normalize3 (cross3 (worldUpOf (normalize3 nv)) (normalize3 nv)))))

/-- The lexicographic sort key of a (centroid-relative) vertex in the local
frame: `(-local_up_coordinate, right_coordinate)`. -/
noncomputable def tlKey (right up centroid : V3 ℝ) (p : V3 ℝ) : ℝ × ℝ :=
  (-(dot3 (vsub p centroid) up), dot3 (vsub p centroid) right)

/-- Strict lexicographic order on key pairs. -/
def lexLt (a b : ℝ × ℝ) : Prop := a.1 < b.1 ∨ (a.1 = b.1 ∧ a.2 < b.2)

/-- A vertex list is cyclically ascending for `compare_points` under the given
normal when every vertex weakly precedes its cyclic successor (the comparator
never reports the successor as strictly smaller).  Convex polygons listed in
winding order around their centroid are of this shape. -/
noncomputable def cyclicAsc (L : List (V3 ℝ)) (nv : V3 ℝ) : Prop :=
  ∀ i, i < L.length →
    ¬ comparePoints (normalize3 nv) (meanV L)
        (L.getD ((i + 1) % L.length) v0) (L.getD i v0) < 0

open Classical in
/-- Fold underlying `np.lexsort(keys)[0]`: the running best key with its
index, strict improvement only, so the earliest index among ties is kept
(`np.lexsort` is a stable sort). -/
noncomputable def lexArgminAux : List (ℝ × ℝ) → Nat → (ℝ × ℝ) × Nat → (ℝ × ℝ) × Nat
  | [], _, best => best
  | k :: rest, i, best =>
      if lexLt k best.1 then lexArgminAux rest (i + 1) (k, i)
      else lexArgminAux rest (i + 1) best

/-- `np.lexsort((keys[:,1], keys[:,0]))[0]`. -/
noncomputable def lexArgmin : List (ℝ × ℝ) → Nat
  | [] => 0
  | k :: rest => (lexArgminAux rest 1 (k, 0)).2

/-- `GeometrySchema._get_top_left_corner_from_normal`: project the
centroid-relative points on the local frame and take the index of the
lexicographically smallest `(-y, x)` key. -/
noncomputable def get_top_left_corner_from_normal (pts : List (V3 ℝ)) (nv : V3 ℝ) : Nat :=
  lexArgmin (pts.map (tlKey (frameOf nv).1 (frameOf nv).2 (meanV pts)))

/-- The sorted point array of `_sort_vertices_clockwise` before the roll:
`points[sorted_indices]` where `sorted_indices` is the index list sorted under
`compare_points` with the unit normal and the centroid of the points. -/
noncomputable def sortedByCompare (points : List (V3 ℝ)) (nv : V3 ℝ) : List (V3 ℝ) :=
  (pySorted
    (fun i j => comparePoints (normalize3 nv) (meanV points)
        (points.getD i v0) (points.getD j v0))
    (List.range points.length)).map (fun i => points.getD i v0)

/-- `GeometrySchema._sort_vertices_clockwise`: sort the index list under
`compare_points` (CPython `sorted` with `cmp_to_key`), gather the points, and
roll the result so the top-left vertex is first (`np.roll(points, -i)` is a
left rotation by `i`). -/
noncomputable def sort_vertices_clockwise (points : List (V3 ℝ)) (nv : V3 ℝ) : List (V3 ℝ) :=
  (sortedByCompare points nv).rotate
    (get_top_left_corner_from_normal (sortedByCompare points nv) nv)

/-! ## `GeometrySchema._get_normal_vector` (lines 1042-1059) -/

/-- The batch-fatal errors of the canonicalization pipeline. -/
inductive GeomError where
  | closure (offending : List (V3 ℝ))
  | missingReference
  | emptyInterior
  | tooFewPoints

open Classical in
/-- `np.argmin` over the distances from `c` to the interior points, returning
the nearest point itself (strict improvement keeps the first minimizer, like
`np.argmin`). -/
noncomputable def nearestInterior (c : V3 ℝ) : V3 ℝ → List (V3 ℝ) → V3 ℝ
  | best, [] => best
  | best, p :: rest =>
      if dist3 p c < dist3 best c then nearestInterior c p rest
      else nearestInterior c best rest

/-- The `interior_vector` of `_get_normal_vector`: nearest interior reference
point minus the surface centroid. -/
noncomputable def interiorVector (points : List (V3 ℝ)) (ip0 : V3 ℝ) (ipRest : List (V3 ℝ)) : V3 ℝ :=
  vsub (nearestInterior (meanV points) ip0 ipRest) (meanV points)

open Classical in
/-- `GeometrySchema._get_normal_vector`.  On an empty interior array numpy
fails inside the nearest-point computation (the broadcast subtraction /
`argmin` over an empty array raises), modelled by `emptyInterior`; indexing
`points[1]`/`points[2]` of a short array raises, modelled by `tooFewPoints`. -/
noncomputable def get_normal_vector (points ip : List (V3 ℝ)) : Except GeomError (V3 ℝ) :=
  match ip with
  | [] => Except.error GeomError.emptyInterior
  | ip0 :: ipRest =>
      match points with
      | p0 :: p1 :: p2 :: _ =>
          let iv := interiorVector points ip0 ipRest
          let va := vsub p1 p0
          let vb := vsub p2 p0
          let nv := if dot3 (cross3 va vb) iv < 0 then cross3 va vb else cross3 vb va
          Except.ok (normalize3 nv)
      | _ => Except.error GeomError.tooFewPoints

/-! ## `GeometrySchema.validate_points_sorting` (lines 924-960) and
`_get_interior_points` (lines 996-1012) -/

/-- The fields of a validated `SurfaceSchema` the geometry pipeline reads. -/
structure Surface where
  name : String
  surface_type : String
  vertices : List (V3 ℝ)

/-- The fields of a validated `FenestrationSurfaceSchema` the pipeline reads. -/
structure Fen where
  name : String
  vertices : List (V3 ℝ)

/-- `np.any(arr)` on a stacked point array: some coordinate is nonzero.  An
empty array and an all-zero array are both falsy. -/
def anyNZ (l : List (V3 ℝ)) : Prop := ∃ v ∈ l, v ≠ v0

/-- `GeometrySchema._get_interior_points`, modelled exactly for a three-vertex
floor: scipy's Delaunay triangulation of three (2D-projected, affinely
independent) points is the single triangle itself, so the interior reference
set is the one 3D centroid of the original vertices.  (Floors with more
vertices would triangulate into several triangles; every concrete floor used
below is a triangle, for which this model is exact.) -/
noncomputable def triCentroids (verts : List (V3 ℝ)) : List (V3 ℝ) :=
  match verts with
  | [a, b, c] => [meanV [a, b, c]]
  | _ => []

open Classical in
/-- One iteration of the first loop of `validate_points_sorting` over
`(class attribute, local interior_points)`: a Floor recomputes the local
interior points, sets the class attribute only if it is still falsy, and is
wound with the fixed normal `(0,0,-1)`; a Roof or Ceiling is wound with the
fixed `(0,0,1)`; every other surface is untouched by this loop. -/
noncomputable def loop1Step (getIP : List (V3 ℝ) → List (V3 ℝ))
    (st : List (V3 ℝ) × List (V3 ℝ)) (s : Surface) :
    (List (V3 ℝ) × List (V3 ℝ)) × Surface :=
  if s.surface_type = "Floor" then
    let ip := getIP s.vertices
    let attr := if anyNZ st.1 then st.1 else ip
    ((attr, ip), { s with vertices := sort_vertices_clockwise s.vertices ⟨0, 0, -1⟩ })
  else if s.surface_type = "Roof" ∨ s.surface_type = "Ceiling" then
    (st, { s with vertices := sort_vertices_clockwise s.vertices ⟨0, 0, 1⟩ })
  else (st, s)

/-- The first loop of `validate_points_sorting`, threading the state and
rebuilding the (mutated-in-place) surface list. -/
noncomputable def loop1 (getIP : List (V3 ℝ) → List (V3 ℝ)) :
    List (V3 ℝ) × List (V3 ℝ) → List Surface → (List (V3 ℝ) × List (V3 ℝ)) × List Surface
  | st, [] => (st, [])
  | st, s :: rest =>
      let (st1, s1) := loop1Step getIP st s
      let (st2, rest1) := loop1 getIP st1 rest
      (st2, s1 :: rest1)

open Classical in
/-- The second loop: every surface that is not a Floor, Roof or Ceiling needs
the interior reference points (raising the missing-reference `ValueError` when
they are empty), derives its normal and is wound with it. -/
noncomputable def loop2 (ip : List (V3 ℝ)) : List Surface → Except GeomError (List Surface)
  | [] => Except.ok []
  | s :: rest =>
      if s.surface_type = "Floor" ∨ s.surface_type = "Roof" ∨ s.surface_type = "Ceiling" then
        (loop2 ip rest).map (fun r => s :: r)
      else if ip.length = 0 then Except.error GeomError.missingReference
      else do
        let n ← get_normal_vector s.vertices ip
        let s1 := { s with vertices := sort_vertices_clockwise s.vertices n }
        (loop2 ip rest).map (fun r => s1 :: r)

/-- The third loop: every fenestration surface derives a normal from the
interior points — with no emptiness guard — and is wound with it. -/
noncomputable def loop3 (ip : List (V3 ℝ)) : List Fen → Except GeomError (List Fen)
  | [] => Except.ok []
  | f :: rest => do
      let n ← get_normal_vector f.vertices ip
      let f1 := { f with vertices := sort_vertices_clockwise f.vertices n }
      (loop3 ip rest).map (fun r => f1 :: r)

open Classical in
/-- `GeometrySchema.validate_points_sorting`: early return on an empty model;
start from the class-level `_interior_points` if it is truthy, else from an
empty array; run the three loops; on success return the new surface and
fenestration lists together with the (possibly updated) class attribute. -/
noncomputable def validate_points_sorting (getIP : List (V3 ℝ) → List (V3 ℝ))
    (classAttr : List (V3 ℝ)) (surfaces : List Surface) (fens : List Fen) :
    Except GeomError (List Surface × List Fen × List (V3 ℝ)) :=
  if surfaces = [] ∧ fens = [] then Except.ok ([], [], classAttr)
  else do
    let surfs2 ← loop2
        ((loop1 getIP (classAttr, if anyNZ classAttr then classAttr else []) surfaces).1).2
        ((loop1 getIP (classAttr, if anyNZ classAttr then classAttr else []) surfaces).2)
    let fens2 ← loop3
        ((loop1 getIP (classAttr, if anyNZ classAttr then classAttr else []) surfaces).1).2
        fens
    Except.ok (surfs2, fens2,
      ((loop1 getIP (classAttr, if anyNZ classAttr then classAttr else []) surfaces).1).1)

open Classical in
/-- The geometry stage of model validation: the `surfaces` field validator
`validate_geometry_closure` runs first (pydantic field validators precede
`mode="after"` model validators; it is skipped when the field keeps its `[]`
default, and `np.vstack` of a nonempty list always succeeds), and only then
does the `validate_points_sorting` model validator run. -/
noncomputable def geometry_validate (getIP : List (V3 ℝ) → List (V3 ℝ))
    (classAttr : List (V3 ℝ)) (surfaces : List Surface) (fens : List Fen) :
    Except GeomError (List Surface × List Fen × List (V3 ℝ)) :=
  if surfaces ≠ [] ∧ closureViolations (surfaces.map Surface.vertices) ≠ [] then
    Except.error (GeomError.closure (closureViolations (surfaces.map Surface.vertices)))
  else validate_points_sorting getIP classAttr surfaces fens

/-! ## Concrete inputs used by witnesses and counterexamples -/

/-- A simple nonconvex planar quadrilateral (no three vertices collinear,
non-self-intersecting in this cyclic order) refuting presentation-independence
and idempotence of the winding normalization. -/
def poly4 : List (V3 ℝ) :=
  [⟨1, 2, 0⟩, ⟨-2, -2, 0⟩, ⟨-1, 2, 0⟩, ⟨0, 1, 0⟩]

/-- The unit square in the plane, listed in comparator-ascending cyclic order
for the downward normal: the input class on which the amended C4 claim holds. -/
def sq4 : List (V3 ℝ) :=
  [⟨0, 0, 0⟩, ⟨0, 1, 0⟩, ⟨1, 1, 0⟩, ⟨1, 0, 0⟩]

/-- A unit cube as six quadrilateral faces sharing eight corners, each corner
used by exactly three faces (the closed-box example of the closure check),
with exact rational coordinates. -/
def unitBox : List (List (V3 ℚ)) :=
  [ [⟨0, 0, 0⟩, ⟨1, 0, 0⟩, ⟨1, 1, 0⟩, ⟨0, 1, 0⟩],
    [⟨0, 0, 1⟩, ⟨1, 0, 1⟩, ⟨1, 1, 1⟩, ⟨0, 1, 1⟩],
    [⟨0, 0, 0⟩, ⟨1, 0, 0⟩, ⟨1, 0, 1⟩, ⟨0, 0, 1⟩],
    [⟨0, 1, 0⟩, ⟨1, 1, 0⟩, ⟨1, 1, 1⟩, ⟨0, 1, 1⟩],
    [⟨0, 0, 0⟩, ⟨0, 1, 0⟩, ⟨0, 1, 1⟩, ⟨0, 0, 1⟩],
    [⟨1, 0, 0⟩, ⟨1, 1, 0⟩, ⟨1, 1, 1⟩, ⟨1, 0, 1⟩] ]

/-- A triangular floor at height 0 (its Delaunay triangulation is itself). -/
def floorTriA : Surface :=
  { name := "floorA", surface_type := "Floor",
    vertices := [⟨0, 0, 0⟩, ⟨6, 0, 0⟩, ⟨0, 6, 0⟩] }

/-- A second, different triangular floor. -/
def floorTriB : Surface :=
  { name := "floorB", surface_type := "Floor",
    vertices := [⟨0, 0, 0⟩, ⟨12, 0, 0⟩, ⟨0, 12, 0⟩] }

/-- A wall surface (its type is outside the fixed-normal set). -/
def wallS : Surface :=
  { name := "wall", surface_type := "Wall",
    vertices := [⟨0, 0, 0⟩, ⟨6, 0, 0⟩, ⟨6, 0, 3⟩, ⟨0, 0, 3⟩] }

/-- A fenestration surface cut into `wallS`. -/
def fenS : Fen :=
  { name := "win", vertices := [⟨1, 0, 1⟩, ⟨2, 0, 1⟩, ⟨2, 0, 2⟩, ⟨1, 0, 2⟩] }

/-- A surface whose lone repeated vertex has multiplicity two — an unclosed
envelope for the closure check. -/
noncomputable def degenSurf : Surface :=
  { name := "open", surface_type := "Wall", vertices := [v0, v0] }

/-! # Theorems -/

/-! ## Claim C6 — choice validation -/

theorem choiceMapping_none_iff (validChoices : List String) (k : String) :
    choiceMapping validChoices k = Option.none ↔ ∀ c ∈ validChoices, pyLower c ≠ k := by
  simp [choiceMapping]

theorem choiceMapping_some (validChoices : List String) (k canon : String)
    (h : choiceMapping validChoices k = Option.some canon) :
    canon ∈ validChoices ∧ pyLower canon = k := by
  have hm := List.mem_of_getLast?_eq_some h
  have := List.mem_filter.mp hm
  simpa using this

/-- C6: choice validation raises the invalid-choice error, carrying the field
label and the full legal set, exactly when no case-insensitive match exists;
when a match exists it returns the canonical casing from the legal set
(`validate("tarp", {"TARP","Simple"}, "X")` returns `"TARP"`); and
re-validating an already-canonical output returns it unchanged with no
normalization notice. -/
theorem claim_C6 :
    (∀ value validChoices fieldName,
        validate_choice_field value validChoices fieldName
            = ChoiceOutcome.invalid fieldName validChoices
          ↔ ∀ c ∈ validChoices, pyLower c ≠ pyLower value) ∧
    validate_choice_field "tarp" ["TARP", "Simple"] "X" = ChoiceOutcome.ok "TARP" true ∧
    (∀ value validChoices fieldName r b,
        validate_choice_field value validChoices fieldName = ChoiceOutcome.ok r b →
        r ∈ validChoices ∧
        validate_choice_field r validChoices fieldName = ChoiceOutcome.ok r false) := by
  refine ⟨?_, by decide, ?_⟩
  · intro value validChoices fieldName
    rw [← choiceMapping_none_iff validChoices (pyLower value)]
    unfold validate_choice_field
    cases h : choiceMapping validChoices (pyLower value) with
    | none => simp
    | some canon => simp
  · intro value validChoices fieldName r b hok
    unfold validate_choice_field at hok
    cases h : choiceMapping validChoices (pyLower value) with
    | none => rw [h] at hok; exact absurd hok (by simp)
    | some canon =>
        rw [h] at hok
        have hok2 : canon = r ∧ (!validChoices.contains value) = b := by
          simpa using hok
        obtain ⟨hcr, _⟩ := hok2
        subst hcr
        obtain ⟨hmem, hlow⟩ := choiceMapping_some validChoices (pyLower value) canon h
        have hcont : validChoices.contains canon = true := List.elem_iff.mpr hmem
        refine ⟨hmem, ?_⟩
        unfold validate_choice_field
        rw [hlow, h]
        simp [hcont, hmem]

/-- Witness for C6: the idempotence clause applied to the concrete example. -/
theorem claim_C6_witness :
    ("TARP" ∈ ["TARP", "Simple"]) ∧
    validate_choice_field "TARP" ["TARP", "Simple"] "X" = ChoiceOutcome.ok "TARP" false :=
  claim_C6.2.2 "tarp" ["TARP", "Simple"] "X" "TARP" true claim_C6.2.1

/-! ## Claim C7 — nameless field descriptors in `IDDField.__init__` -/

theorem buildListAttrs_skip_nameless (es : List (String × PyVal))
    (h : es.lookup "field" = Option.none) (post : List PyVal) :
    ∀ (pre : List PyVal) (acc : List (String × IDDNode)),
      buildListAttrs acc (pre ++ PyVal.dict es :: post) = buildListAttrs acc (pre ++ post) := by
  intro pre
  induction pre with
  | nil =>
      intro acc
      simp only [List.nil_append]
      rw [buildListAttrs]
      simp [fieldNameOf, h]
  | cons p rest ih =>
      intro acc
      cases p with
      | str s => simp only [List.cons_append, buildListAttrs]; exact ih acc
      | num q => simp only [List.cons_append, buildListAttrs]; exact ih acc
      | none => simp only [List.cons_append, buildListAttrs]; exact ih acc
      | dict es2 =>
          simp only [List.cons_append, buildListAttrs]
          cases fieldNameOf es2 with
          | skip => exact ih acc
          | crash m => rfl
          | name s => exact ih _
      | list items =>
          cases items with
          | nil => simp only [List.cons_append, buildListAttrs]; exact ih acc
          | cons first tl =>
              simp only [List.cons_append, buildListAttrs]
              cases idfobjName first with
              | skip => exact ih acc
              | crash m => rfl
              | name s =>
                  simp only
                  cases buildListAttrs [] tl with
                  | error m => rfl
                  | ok sub => exact ih _

/-- Counterexample for C7: a metadata list containing a field descriptor with
no name (no `"field"` key at all) builds successfully — the build does not
fail fast with an error; the descriptor is silently dropped and the resulting
constraint model is empty. -/
theorem claim_C7_counterexample :
    iddBuild (PyVal.list [PyVal.dict [("note", PyVal.str "x")]])
      = Except.ok (IDDNode.node []) := by
  simp [iddBuild, buildListAttrs, fieldNameOf, List.lookup, Except.map]

/-- C7 as amended: a field descriptor with no name is silently skipped — the
build of the field-constraint model is unchanged by deleting the nameless
descriptor (in particular it does not fail because of it). -/
theorem claim_C7_amended (pre post : List PyVal) (es : List (String × PyVal))
    (h : es.lookup "field" = Option.none) :
    iddBuild (PyVal.list (pre ++ PyVal.dict es :: post))
      = iddBuild (PyVal.list (pre ++ post)) := by
  simp only [iddBuild]
  rw [buildListAttrs_skip_nameless es h post pre []]

/-- Witness for the amended C7. -/
theorem claim_C7_amended_witness :
    iddBuild (PyVal.list [PyVal.dict [("note", PyVal.str "x")], PyVal.dict [("field", PyVal.str "A")]])
      = iddBuild (PyVal.list [PyVal.dict [("field", PyVal.str "A")]]) :=
  claim_C7_amended [] [PyVal.dict [("field", PyVal.str "A")]] [("note", PyVal.str "x")] rfl

/-! ## Claim C8 — the vertices validators skip all checks for array input -/

/-- C8: for both the surface and the fenestration vertices validator, a numpy
array input is returned immediately — the minimum-of-3 and the pairwise
1e-10-closeness checks run only for raw list input, so those errors can never
be raised for array input. -/
theorem claim_C8 :
    (∀ pts, surface_validate_vertices (VerticesInput.arr pts) = Except.ok pts ∧
        fenestration_validate_vertices (VerticesInput.arr pts) = Except.ok pts) ∧
    (∀ pts, pts.length < 3 →
        surface_validate_vertices (VerticesInput.raw pts)
          = Except.error (VertError.insufficient pts.length) ∧
        fenestration_validate_vertices (VerticesInput.raw pts)
          = Except.error (VertError.insufficient pts.length)) ∧
    (∀ pts, ¬ pts.length < 3 → hasClosePair pts →
        surface_validate_vertices (VerticesInput.raw pts) = Except.error VertError.tooClose ∧
        fenestration_validate_vertices (VerticesInput.raw pts) = Except.error VertError.tooClose) := by
  refine ⟨fun pts => ⟨rfl, rfl⟩, fun pts h => ?_, fun pts h hc => ?_⟩
  · constructor <;> simp [surface_validate_vertices, fenestration_validate_vertices, h]
  · constructor <;> simp [surface_validate_vertices, fenestration_validate_vertices, h, hc]

/-- Witness for C8: an empty array is accepted unchanged (neither check runs),
a 1-element raw list is rejected as insufficient, and a raw list of three
coincident points is rejected as too close. -/
theorem claim_C8_witness :
    surface_validate_vertices (VerticesInput.arr []) = Except.ok [] ∧
    fenestration_validate_vertices (VerticesInput.raw [v0])
      = Except.error (VertError.insufficient 1) ∧
    surface_validate_vertices (VerticesInput.raw [v0, v0, v0])
      = Except.error VertError.tooClose := by
  have hclose : hasClosePair [v0, v0, v0] := by
    refine ⟨0, 1, by simp, by simp, by simp, ?_⟩
    simp only [List.getD]
    norm_num [dist3, norm3, vsub, dot3, v0, Real.sqrt_zero]
  exact ⟨(claim_C8.1 []).1,
    (claim_C8.2.1 [v0] (by simp)).2,
    (claim_C8.2.2 [v0, v0, v0] (by simp) hclose).1⟩

/-! ## Claim C2 — envelope closure check -/

theorem roundV8_zero : roundV8 (v0 : V3 ℝ) = v0 := by
  simp [roundV8, round8, v0]

theorem round8_zero_q : round8 (0 : ℚ) = 0 := by
  simp [round8]

theorem round8_one_q : round8 (1 : ℚ) = 1 := by
  have h : ((1 : ℚ) * 10 ^ 8) = ((10 ^ 8 : ℤ) : ℚ) := by norm_num
  rw [round8, h, round_intCast]
  norm_num

/-- C2: canonicalization fails with the closure error — listing exactly the
unique rounded vertices of multiplicity below 3 — whenever one exists, and it
does so whatever the interior-point computation or class state is, i.e. before
any normal or winding computation runs; a closed box of six quadrilateral
faces sharing eight corners passes the check. -/
theorem claim_C2 :
    (∀ (getIP : List (V3 ℝ) → List (V3 ℝ)) (classAttr : List (V3 ℝ))
        (surfaces : List Surface) (fens : List Fen),
        surfaces ≠ [] →
        closureViolations (surfaces.map Surface.vertices) ≠ [] →
        geometry_validate getIP classAttr surfaces fens
          = Except.error (GeomError.closure (closureViolations (surfaces.map Surface.vertices)))) ∧
    (∀ (ss : List (List (V3 ℝ))) (p : V3 ℝ),
        p ∈ closureViolations ss ↔
          p ∈ ss.flatten.map roundV8 ∧ (ss.flatten.map roundV8).count p < 3) ∧
    closureViolations unitBox = [] := by
  refine ⟨?_, ?_, ?_⟩
  case refine_3 =>
    have hpts : unitBox.flatten.map roundV8 = unitBox.flatten := by
      simp [unitBox, roundV8, round8_zero_q, round8_one_q]
    rw [closureViolations]
    rw [hpts]
    decide
  · intro getIP classAttr surfaces fens hne hviol
    rw [geometry_validate, if_pos ⟨hne, hviol⟩]
  · intro ss p
    simp [closureViolations, List.mem_filter, List.mem_dedup]

/-- Witness for C2: the one-surface envelope whose both vertices coincide at
the origin fails closure (the origin has multiplicity 2), whatever interior
computation and class state are supplied. -/
theorem claim_C2_witness :
    geometry_validate triCentroids [] [degenSurf] []
      = Except.error (GeomError.closure (closureViolations ([degenSurf].map Surface.vertices))) := by
  have hmem : (v0 : V3 ℝ) ∈ closureViolations ([degenSurf].map Surface.vertices) := by
    rw [claim_C2.2.1]
    constructor
    · simp [degenSurf, roundV8_zero]
    · simp [degenSurf, roundV8_zero, List.count_cons_self]
  exact claim_C2.1 triCentroids [] [degenSurf] [] (by simp)
    (List.ne_nil_of_mem hmem)

/-! ## Claim C1 — derived outward normals -/

theorem dot3_smul_left (c : ℝ) (a b : V3 ℝ) : dot3 (smul3 c a) b = c * dot3 a b := by
  simp [dot3, smul3]; ring

theorem dot3_cross3_swap (a b c : V3 ℝ) : dot3 (cross3 b a) c = -dot3 (cross3 a b) c := by
  simp [dot3, cross3]; ring

/-- C1: with a non-empty interior reference set, the derived normal is the
unit vector along `cross(v1,v2)` when `dot(cross(v1,v2), interior_vector) < 0`
and along `cross(v2,v1)` otherwise, where the interior vector points from the
surface centroid to the nearest interior reference point; consequently
`dot(normal, interior_vector) ≤ 0` always.  Floor surfaces are wound with the
fixed normal `(0,0,-1)` and Roof/Ceiling surfaces with the fixed `(0,0,1)`. -/
theorem claim_C1 :
    (∀ (p0 p1 p2 : V3 ℝ) (rest : List (V3 ℝ)) (ip0 : V3 ℝ) (ipRest : List (V3 ℝ)),
        get_normal_vector (p0 :: p1 :: p2 :: rest) (ip0 :: ipRest)
          = Except.ok (normalize3
              (if dot3 (cross3 (vsub p1 p0) (vsub p2 p0))
                    (interiorVector (p0 :: p1 :: p2 :: rest) ip0 ipRest) < 0 then
                 cross3 (vsub p1 p0) (vsub p2 p0)
               else cross3 (vsub p2 p0) (vsub p1 p0))) ∧
        dot3 (normalize3
              (if dot3 (cross3 (vsub p1 p0) (vsub p2 p0))
                    (interiorVector (p0 :: p1 :: p2 :: rest) ip0 ipRest) < 0 then
                 cross3 (vsub p1 p0) (vsub p2 p0)
               else cross3 (vsub p2 p0) (vsub p1 p0)))
          (interiorVector (p0 :: p1 :: p2 :: rest) ip0 ipRest) ≤ 0) ∧
    (∀ (getIP : List (V3 ℝ) → List (V3 ℝ)) (st : List (V3 ℝ) × List (V3 ℝ)) (s : Surface),
        (s.surface_type = "Floor" →
          ((loop1Step getIP st s).2).vertices
            = sort_vertices_clockwise s.vertices ⟨0, 0, -1⟩) ∧
        ((s.surface_type = "Roof" ∨ s.surface_type = "Ceiling") →
          ((loop1Step getIP st s).2).vertices
            = sort_vertices_clockwise s.vertices ⟨0, 0, 1⟩)) := by
  constructor
  · intro p0 p1 p2 rest ip0 ipRest
    set iv := interiorVector (p0 :: p1 :: p2 :: rest) ip0 ipRest with hiv
    constructor
    · rfl
    · by_cases hlt : dot3 (cross3 (vsub p1 p0) (vsub p2 p0)) iv < 0
      · rw [if_pos hlt]
        rw [normalize3, dot3_smul_left]
        exact mul_nonpos_of_nonneg_of_nonpos
          (inv_nonneg.mpr (Real.sqrt_nonneg _)) (le_of_lt hlt)
      · rw [if_neg hlt]
        rw [normalize3, dot3_smul_left, dot3_cross3_swap]
        exact mul_nonpos_of_nonneg_of_nonpos
          (inv_nonneg.mpr (Real.sqrt_nonneg _))
          (neg_nonpos_of_nonneg (le_of_not_lt hlt))
  · intro getIP st s
    constructor
    · intro hty
      simp [loop1Step, hty]
    · intro hty
      rcases hty with hty | hty <;> simp [loop1Step, hty]

/-- Witness for C1: the fixed-normal clauses applied to a concrete Floor and
a concrete Roof, and the derived-normal clause at a concrete wall. -/
theorem claim_C1_witness :
    ((loop1Step triCentroids ([], []) floorTriA).2).vertices
      = sort_vertices_clockwise floorTriA.vertices ⟨0, 0, -1⟩ ∧
    ((loop1Step triCentroids ([], [])
        { floorTriA with surface_type := "Roof" }).2).vertices
      = sort_vertices_clockwise floorTriA.vertices ⟨0, 0, 1⟩ :=
  ⟨(claim_C1.2 triCentroids ([], []) floorTriA).1 rfl,
   (claim_C1.2 triCentroids ([], []) { floorTriA with surface_type := "Roof" }).2 (Or.inl rfl)⟩

/-! ## Loop lemmas for the `validate_points_sorting` pipeline -/

theorem loop1Step_type (getIP : List (V3 ℝ) → List (V3 ℝ))
    (st : List (V3 ℝ) × List (V3 ℝ)) (s : Surface) :
    ((loop1Step getIP st s).2).surface_type = s.surface_type := by
  unfold loop1Step
  split
  · rfl
  · split
    · rfl
    · rfl

theorem loop1Step_state_no_floor (getIP : List (V3 ℝ) → List (V3 ℝ))
    (st : List (V3 ℝ) × List (V3 ℝ)) (s : Surface)
    (h : ¬ s.surface_type = "Floor") :
    ((loop1Step getIP st s).1) = st := by
  unfold loop1Step
  rw [if_neg h]
  split
  · rfl
  · rfl

open Classical in
theorem loop1Step_state_floor (getIP : List (V3 ℝ) → List (V3 ℝ))
    (st : List (V3 ℝ) × List (V3 ℝ)) (s : Surface)
    (h : s.surface_type = "Floor") :
    ((loop1Step getIP st s).1)
      = ((if anyNZ st.1 then st.1 else getIP s.vertices), getIP s.vertices) := by
  unfold loop1Step
  rw [if_pos h]

theorem loop1_types (getIP : List (V3 ℝ) → List (V3 ℝ)) :
    ∀ (surfaces : List Surface) (st : List (V3 ℝ) × List (V3 ℝ)),
      ((loop1 getIP st surfaces).2).map Surface.surface_type
        = surfaces.map Surface.surface_type
  | [], _ => rfl
  | s :: rest, st => by
      simp only [loop1, List.map_cons]
      rw [loop1Step_type, loop1_types getIP rest]

theorem loop1_state_no_floor (getIP : List (V3 ℝ) → List (V3 ℝ)) :
    ∀ (surfaces : List Surface) (st : List (V3 ℝ) × List (V3 ℝ)),
      (∀ s ∈ surfaces, ¬ s.surface_type = "Floor") →
      (loop1 getIP st surfaces).1 = st
  | [], _, _ => rfl
  | s :: rest, st, h => by
      simp only [loop1]
      rw [loop1Step_state_no_floor getIP st s (h s (List.mem_cons_self s rest))]
      exact loop1_state_no_floor getIP rest st (fun t ht => h t (List.mem_cons_of_mem s ht))

theorem loop1_attr_of_anyNZ (getIP : List (V3 ℝ) → List (V3 ℝ)) :
    ∀ (surfaces : List Surface) (st : List (V3 ℝ) × List (V3 ℝ)),
      anyNZ st.1 →
      ((loop1 getIP st surfaces).1).1 = st.1
  | [], _, _ => rfl
  | s :: rest, st, h => by
      simp only [loop1]
      by_cases hf : s.surface_type = "Floor"
      · rw [loop1Step_state_floor getIP st s hf, if_pos h]
        exact loop1_attr_of_anyNZ getIP rest _ h
      · rw [loop1Step_state_no_floor getIP st s hf]
        exact loop1_attr_of_anyNZ getIP rest st h

theorem loop1_ip_last_floor (getIP : List (V3 ℝ) → List (V3 ℝ)) :
    ∀ (surfaces : List Surface) (st : List (V3 ℝ) × List (V3 ℝ)) (f : Surface),
      (surfaces.filter (fun s => s.surface_type == "Floor")).getLast? = Option.some f →
      ((loop1 getIP st surfaces).1).2 = getIP f.vertices
  | [], _, _, h => by simp at h
  | s :: rest, st, f, h => by
      simp only [loop1]
      by_cases hf : s.surface_type = "Floor"
      · cases hrest : (rest.filter (fun t => t.surface_type == "Floor")).getLast? with
        | some g =>
            have hfg : g = f := by
              rw [List.filter_cons_of_pos (by simp [hf]), List.getLast?_cons, hrest] at h
              simpa using h
            subst hfg
            exact loop1_ip_last_floor getIP rest _ g hrest
        | none =>
            have hnil : rest.filter (fun t => t.surface_type == "Floor") = [] := by
              simpa using hrest
            have hfs : s = f := by
              rw [List.filter_cons_of_pos (by simp [hf]), List.getLast?_cons, hrest] at h
              simpa using h
            subst hfs
            have hnof : ∀ t ∈ rest, ¬ t.surface_type = "Floor" := by
              intro t ht
              intro hty
              have : t ∈ rest.filter (fun u => u.surface_type == "Floor") :=
                List.mem_filter.mpr ⟨ht, by simp [hty]⟩
              rw [hnil] at this
              simp at this
            rw [loop1Step_state_floor getIP st s hf]
            rw [loop1_state_no_floor getIP rest _ hnof]
      · rw [loop1Step_state_no_floor getIP st s hf]
        rw [List.filter_cons_of_neg (by simp [hf])] at h
        exact loop1_ip_last_floor getIP rest st f h

theorem loop2_skip_all (ip : List (V3 ℝ)) :
    ∀ (surfaces : List Surface),
      (∀ s ∈ surfaces, s.surface_type = "Floor" ∨ s.surface_type = "Roof"
          ∨ s.surface_type = "Ceiling") →
      loop2 ip surfaces = Except.ok surfaces
  | [], _ => rfl
  | s :: rest, h => by
      rw [loop2, if_pos (h s (List.mem_cons_self s rest))]
      rw [loop2_skip_all ip rest (fun t ht => h t (List.mem_cons_of_mem s ht))]
      rfl

/-! ## Claim C5 — which Floor the interior reference points come from -/

/-- Counterexample for C5: with two triangular floors, the interior-point set
handed to the derived-normal loops is the centroid set of the LAST floor, and
it differs from the first floor's — so the set is not computed once from the
first Floor encountered. -/
theorem claim_C5_counterexample :
    ((loop1 triCentroids ([], []) [floorTriA, floorTriB]).1).2
        = triCentroids floorTriB.vertices ∧
    triCentroids floorTriB.vertices ≠ triCentroids floorTriA.vertices := by
  constructor
  · apply loop1_ip_last_floor
    simp [floorTriA, floorTriB, List.filter]
  · intro h
    simp only [triCentroids, floorTriA, floorTriB, meanV, vsum, smul3,
      List.map_cons, List.map_nil, List.sum_cons, List.sum_nil, List.length_cons,
      List.length_nil, List.cons.injEq, and_true, V3.mk.injEq] at h
    norm_num at h

open Classical in
/-- C5 as amended: the interior reference set is recomputed at every Floor
surface of the run, so the set used by the derived-normal loops (for opaque
non-fixed surfaces and for all fenestrations) is the triangulation-centroid
set of the LAST Floor encountered; the first Floor's set survives only in the
class-level cache. -/
theorem claim_C5_amended (getIP : List (V3 ℝ) → List (V3 ℝ)) (classAttr : List (V3 ℝ))
    (surfaces : List Surface) (fens : List Fen) (f : Surface)
    (hlast : (surfaces.filter (fun s => s.surface_type == "Floor")).getLast?
        = Option.some f)
    (hne : surfaces ≠ []) :
    validate_points_sorting getIP classAttr surfaces fens
      = (do
          let surfs2 ← loop2 (getIP f.vertices)
              ((loop1 getIP (classAttr,
                  if anyNZ classAttr then classAttr else []) surfaces).2)
          let fens2 ← loop3 (getIP f.vertices) fens
          Except.ok (surfs2, fens2,
            ((loop1 getIP (classAttr,
                if anyNZ classAttr then classAttr else []) surfaces).1).1)) := by
  unfold validate_points_sorting
  rw [if_neg (by intro hc; exact hne hc.1)]
  rw [loop1_ip_last_floor getIP surfaces _ f hlast]

open Classical in
/-- Witness for the amended C5. -/
theorem claim_C5_amended_witness :
    validate_points_sorting triCentroids [] [floorTriA, floorTriB] []
      = (do
          let surfs2 ← loop2 (triCentroids floorTriB.vertices)
              ((loop1 triCentroids ([],
                  if anyNZ ([] : List (V3 ℝ)) then [] else []) [floorTriA, floorTriB]).2)
          let fens2 ← loop3 (triCentroids floorTriB.vertices) []
          Except.ok (surfs2, fens2,
            ((loop1 triCentroids ([],
                if anyNZ ([] : List (V3 ℝ)) then [] else []) [floorTriA, floorTriB]).1).1)) :=
  claim_C5_amended triCentroids [] [floorTriA, floorTriB] [] floorTriB
    (by simp [floorTriA, floorTriB, List.filter]) (by simp)

/-! ## Claim C9 — class-level interior-point state across runs -/

theorem anyNZ_triA : anyNZ (triCentroids floorTriA.vertices) := by
  refine ⟨meanV floorTriA.vertices, by simp [triCentroids, floorTriA], ?_⟩
  simp only [meanV, vsum, smul3, floorTriA, v0, List.map_cons, List.map_nil,
    List.sum_cons, List.sum_nil, List.length_cons, List.length_nil, V3.mk.injEq]
  norm_num

open Classical in
/-- C9: the class-level interior-point attribute, once truthy, is returned
unchanged by every later successful validation (never cleared or overwritten);
a Floor-only envelope validated from a fresh state stores its centroid set
into that attribute; a floorless envelope validated with that inherited state
succeeds using it, while the identical envelope validated from a fresh state
fails with the missing-reference error — so canonicalization is not a
function of its input alone. -/
theorem claim_C9 :
    (∀ (getIP : List (V3 ℝ) → List (V3 ℝ)) (st : List (V3 ℝ)) (surfaces : List Surface)
        (fens : List Fen) (out : List Surface × List Fen × List (V3 ℝ)),
        anyNZ st →
        validate_points_sorting getIP st surfaces fens = Except.ok out →
        out.2.2 = st) ∧
    validate_points_sorting triCentroids [] [floorTriA] []
      = Except.ok
          ([{ floorTriA with
                vertices := sort_vertices_clockwise floorTriA.vertices ⟨0, 0, -1⟩ }],
           [], triCentroids floorTriA.vertices) ∧
    anyNZ (triCentroids floorTriA.vertices) ∧
    (validate_points_sorting triCentroids (triCentroids floorTriA.vertices) [wallS] []).isOk
      = true ∧
    validate_points_sorting triCentroids [] [wallS] []
      = Except.error GeomError.missingReference := by
  refine ⟨?_, ?_, anyNZ_triA, ?_, ?_⟩
  · intro getIP st surfaces fens out hnz hok
    unfold validate_points_sorting at hok
    by_cases hemp : surfaces = [] ∧ fens = []
    · rw [if_pos hemp] at hok
      have := Except.ok.inj hok
      rw [← this]
    · rw [if_neg hemp] at hok
      have hattr : ((loop1 getIP (st, if anyNZ st then st else []) surfaces).1).1 = st :=
        loop1_attr_of_anyNZ getIP surfaces _ hnz
      cases h2 : loop2 ((loop1 getIP (st, if anyNZ st then st else []) surfaces).1).2
          ((loop1 getIP (st, if anyNZ st then st else []) surfaces).2) with
      | error e => rw [h2] at hok; exact Except.noConfusion hok
      | ok surfs2 =>
          rw [h2] at hok
          cases h3 : loop3 ((loop1 getIP (st, if anyNZ st then st else []) surfaces).1).2
              fens with
          | error e => rw [h3] at hok; exact Except.noConfusion hok
          | ok fens2 =>
              rw [h3] at hok
              have := Except.ok.inj hok
              rw [← this]
              exact hattr
  · unfold validate_points_sorting
    rw [if_neg (by simp)]
    simp only [anyNZ, List.mem_nil_iff, false_and, exists_false, if_false,
      loop1, loop1Step, floorTriA, if_pos rfl]
    simp [loop2, loop3, Except.map, anyNZ]
    rfl
  · unfold validate_points_sorting
    rw [if_neg (by simp)]
    rw [if_pos anyNZ_triA]
    have hst : (loop1 triCentroids (triCentroids floorTriA.vertices,
        triCentroids floorTriA.vertices) [wallS]).1
          = (triCentroids floorTriA.vertices, triCentroids floorTriA.vertices) :=
      loop1_state_no_floor _ _ _ (by intro s hs; simp at hs; subst hs; simp [wallS])
    have hsurf : (loop1 triCentroids (triCentroids floorTriA.vertices,
        triCentroids floorTriA.vertices) [wallS]).2 = [wallS] := by
      simp [loop1, loop1Step, wallS]
    rw [hst, hsurf]
    simp only [loop2, loop3, wallS, triCentroids, floorTriA, get_normal_vector, Except.map]
    rfl
  · unfold validate_points_sorting
    rw [if_neg (by simp)]
    rw [if_neg (by simp [anyNZ])]
    have hst : (loop1 triCentroids ([], ([] : List (V3 ℝ))) [wallS]).1 = ([], []) :=
      loop1_state_no_floor _ _ _ (by intro s hs; simp at hs; subst hs; simp [wallS])
    have hsurf : (loop1 triCentroids ([], ([] : List (V3 ℝ))) [wallS]).2 = [wallS] := by
      simp [loop1, loop1Step, wallS]
    rw [hst, hsurf]
    simp only [loop2, wallS]
    rfl

/-- Witness for C9: the persistence clause applied at a truthy state and the
empty (early-returning) envelope. -/
theorem claim_C9_witness :
    (([], [], triCentroids floorTriA.vertices) :
        List Surface × List Fen × List (V3 ℝ)).2.2 = triCentroids floorTriA.vertices := by
  refine claim_C9.1 triCentroids (triCentroids floorTriA.vertices) [] [] _ claim_C9.2.2.1 ?_
  unfold validate_points_sorting
  rw [if_pos ⟨rfl, rfl⟩]

/-! ## Claim C10 — fenestrations bypass the missing-reference guard -/

/-- C10: with an untruthy class state, no Floor surface and only Roof/Ceiling
opaque surfaces (so the missing-reference guard never fires), validating an
envelope with at least one fenestration surface fails inside the nearest-point
computation of the normal derivation — the empty-interior failure, which is a
different error from the missing-reference one. -/
theorem claim_C10 (getIP : List (V3 ℝ) → List (V3 ℝ)) (st : List (V3 ℝ))
    (surfaces : List Surface) (f : Fen) (fs : List Fen)
    (hnz : ¬ anyNZ st)
    (hty : ∀ s ∈ surfaces, s.surface_type = "Roof" ∨ s.surface_type = "Ceiling") :
    validate_points_sorting getIP st surfaces (f :: fs)
        = Except.error GeomError.emptyInterior ∧
    GeomError.emptyInterior ≠ GeomError.missingReference := by
  refine ⟨?_, by simp⟩
  unfold validate_points_sorting
  rw [if_neg (by intro hc; simp at hc)]
  rw [if_neg hnz]
  have hnof : ∀ s ∈ surfaces, ¬ s.surface_type = "Floor" := by
    intro s hs
    rcases hty s hs with h | h <;> simp [h]
  have hst : (loop1 getIP (st, []) surfaces).1 = (st, []) :=
    loop1_state_no_floor getIP surfaces (st, []) hnof
  have htys : ∀ s2 ∈ (loop1 getIP (st, []) surfaces).2,
      s2.surface_type = "Floor" ∨ s2.surface_type = "Roof"
        ∨ s2.surface_type = "Ceiling" := by
    intro s2 hs2
    have hmm : s2.surface_type
        ∈ ((loop1 getIP (st, []) surfaces).2).map Surface.surface_type :=
      List.mem_map_of_mem _ hs2
    rw [loop1_types] at hmm
    obtain ⟨s, hs, heq⟩ := List.mem_map.mp hmm
    rcases hty s hs with h | h
    · exact Or.inr (Or.inl (heq ▸ h))
    · exact Or.inr (Or.inr (heq ▸ h))
  have h2 := loop2_skip_all [] _ htys
  rw [hst]
  have h2x : loop2 (((st : List (V3 ℝ)), ([] : List (V3 ℝ))).2)
      ((loop1 getIP (st, []) surfaces).2)
      = Except.ok ((loop1 getIP (st, []) surfaces).2) := h2
  rw [h2x]
  rfl

/-- Witness for C10: a fresh state, no opaque surfaces, one window. -/
theorem claim_C10_witness :
    validate_points_sorting triCentroids [] [] [fenS]
        = Except.error GeomError.emptyInterior ∧
    GeomError.emptyInterior ≠ GeomError.missingReference :=
  claim_C10 triCentroids [] [] fenS [] (by simp [anyNZ]) (by simp)

/-! ## Lemmas about `pySorted` (CPython sorted) -/

theorem ascRun_append {α : Type} (cmp : α → α → Int) :
    ∀ (prev : α) (l : List α), (ascRun cmp prev l).1 ++ (ascRun cmp prev l).2 = l
  | _, [] => rfl
  | prev, x :: rest => by
      rw [ascRun]
      split
      · rfl
      · simp only [List.cons_append]
        rw [ascRun_append cmp x rest]

theorem descRun_append {α : Type} (cmp : α → α → Int) :
    ∀ (prev : α) (l : List α), (descRun cmp prev l).1 ++ (descRun cmp prev l).2 = l
  | _, [] => rfl
  | prev, x :: rest => by
      rw [descRun]
      split
      · simp only [List.cons_append]
        rw [descRun_append cmp x rest]
      · rfl

theorem countRun_perm {α : Type} (cmp : α → α → Int) (l : List α) :
    List.Perm ((countRun cmp l).1 ++ (countRun cmp l).2) l := by
  match l with
  | [] => exact List.Perm.refl _
  | [x] => exact List.Perm.refl _
  | x :: y :: rest =>
      rw [countRun]
      split
      · have h1 : List.Perm
            ((x :: y :: (descRun cmp y rest).1).reverse ++ (descRun cmp y rest).2)
            ((x :: y :: (descRun cmp y rest).1) ++ (descRun cmp y rest).2) :=
          List.Perm.append_right _ (List.reverse_perm _)
        have h2 : (x :: y :: (descRun cmp y rest).1) ++ (descRun cmp y rest).2
            = x :: y :: rest := by
          simp only [List.cons_append]
          rw [descRun_append cmp y rest]
        rw [h2] at h1
        exact h1
      · apply List.Perm.of_eq
        simp only [List.cons_append]
        rw [ascRun_append cmp y rest]

theorem binSearchPos_le {α : Type} (cmp : α → α → Int) (pivot : α) (arr : List α) :
    ∀ (n lo hi : Nat), hi - lo ≤ n → lo ≤ hi →
      binSearchPos cmp pivot arr lo hi ≤ hi := by
  intro n
  induction n with
  | zero =>
      intro lo hi hn hlh
      rw [binSearchPos]
      rw [dif_neg (by omega)]
      omega
  | succ n ih =>
      intro lo hi hn hlh
      rw [binSearchPos]
      by_cases hlt : lo < hi
      · rw [dif_pos hlt]
        split
        · exact le_trans (ih lo ((lo + hi) / 2) (by omega) (by omega)) (by omega)
        · exact ih ((lo + hi) / 2 + 1) hi (by omega) (by omega)
      · rw [dif_neg hlt]
        omega

theorem binInsertAll_perm {α : Type} (cmp : α → α → Int) :
    ∀ (rest sorted : List α), List.Perm (binInsertAll cmp sorted rest) (sorted ++ rest)
  | [], sorted => by simp [binInsertAll]
  | x :: rest, sorted => by
      rw [binInsertAll]
      have hle : binSearchPos cmp x sorted 0 sorted.length ≤ sorted.length :=
        binSearchPos_le cmp x sorted sorted.length 0 sorted.length (by omega) (by omega)
      have hp1 : List.Perm
          (binInsertAll cmp (sorted.insertIdx (binSearchPos cmp x sorted 0 sorted.length) x) rest)
          ((sorted.insertIdx (binSearchPos cmp x sorted 0 sorted.length) x) ++ rest) :=
        binInsertAll_perm cmp rest _
      have hp2 : List.Perm
          ((sorted.insertIdx (binSearchPos cmp x sorted 0 sorted.length) x) ++ rest)
          ((x :: sorted) ++ rest) :=
        List.Perm.append_right rest (List.perm_insertIdx x sorted hle)
      exact (hp1.trans hp2).trans List.perm_middle.symm

theorem pySorted_perm {α : Type} (cmp : α → α → Int) (l : List α) :
    List.Perm (pySorted cmp l) l := by
  rw [pySorted]
  exact (binInsertAll_perm cmp (countRun cmp l).2 (countRun cmp l).1).trans
    (countRun_perm cmp l)

theorem ascRun_of_chain {α : Type} (cmp : α → α → Int) :
    ∀ (prev : α) (l : List α),
      List.Chain' (fun a b => ¬ cmp b a < 0) (prev :: l) →
      ascRun cmp prev l = (l, [])
  | _, [], _ => rfl
  | prev, x :: rest, h => by
      obtain ⟨h1, h2⟩ := List.chain'_cons.mp h
      rw [ascRun, if_neg h1, ascRun_of_chain cmp x rest h2]

theorem pySorted_of_chain {α : Type} (cmp : α → α → Int) (l : List α)
    (h : List.Chain' (fun a b => ¬ cmp b a < 0) l) :
    pySorted cmp l = l := by
  match l with
  | [] => rfl
  | [x] => rfl
  | x :: y :: rest =>
      obtain ⟨h1, h2⟩ := List.chain'_cons.mp h
      rw [pySorted, countRun, if_neg h1, ascRun_of_chain cmp y rest h2]
      rfl

/-! ## Lemmas about the lexicographic argmin -/

theorem lexLt_trans {a b c : ℝ × ℝ} (h1 : lexLt a b) (h2 : lexLt b c) : lexLt a c := by
  rcases h1 with h1 | ⟨h1e, h1s⟩ <;> rcases h2 with h2 | ⟨h2e, h2s⟩
  · exact Or.inl (lt_trans h1 h2)
  · exact Or.inl (h2e ▸ h1)
  · exact Or.inl (h1e ▸ h2)
  · exact Or.inr ⟨h1e.trans h2e, lt_trans h1s h2s⟩

theorem lexLt_irrefl (a : ℝ × ℝ) : ¬ lexLt a a := by
  intro h
  rcases h with h | ⟨_, h⟩ <;> exact lt_irrefl _ h

theorem lexLt_total (a b : ℝ × ℝ) : lexLt a b ∨ a = b ∨ lexLt b a := by
  rcases lt_trichotomy a.1 b.1 with h | h | h
  · exact Or.inl (Or.inl h)
  · rcases lt_trichotomy a.2 b.2 with h2 | h2 | h2
    · exact Or.inl (Or.inr ⟨h, h2⟩)
    · exact Or.inr (Or.inl (Prod.ext h h2))
    · exact Or.inr (Or.inr (Or.inr ⟨h.symm, h2⟩))
  · exact Or.inr (Or.inr (Or.inl h))

theorem lexArgminAux_min :
    ∀ (rest : List (ℝ × ℝ)) (i : Nat) (best : (ℝ × ℝ) × Nat),
      ¬ lexLt best.1 (lexArgminAux rest i best).1 ∧
      ∀ k ∈ rest, ¬ lexLt k (lexArgminAux rest i best).1
  | [], _, best => ⟨lexLt_irrefl best.1, by simp⟩
  | k :: rest, i, best => by
      rw [lexArgminAux]
      by_cases hk : lexLt k best.1
      · rw [if_pos hk]
        obtain ⟨ih1, ih2⟩ := lexArgminAux_min rest (i + 1) (k, i)
        refine ⟨?_, ?_⟩
        · intro hcon
          exact ih1 (lexLt_trans hk hcon)
        · intro q hq
          rcases List.mem_cons.mp hq with hq | hq
          · exact hq ▸ ih1
          · exact ih2 q hq
      · rw [if_neg hk]
        obtain ⟨ih1, ih2⟩ := lexArgminAux_min rest (i + 1) best
        refine ⟨ih1, ?_⟩
        · intro q hq
          rcases List.mem_cons.mp hq with hq | hq
          · subst hq
            rcases lexLt_total q best.1 with hx | hx | hx
            · exact absurd hx hk
            · exact hx ▸ ih1
            · intro hcon
              exact ih1 (lexLt_trans hx hcon)
          · exact ih2 q hq

theorem lexArgminAux_coh :
    ∀ (rest : List (ℝ × ℝ)) (i : Nat) (best : (ℝ × ℝ) × Nat),
      lexArgminAux rest i best = best ∨
      ∃ k, k < rest.length ∧ (lexArgminAux rest i best).2 = i + k ∧
        (lexArgminAux rest i best).1 = rest.getD k (0, 0)
  | [], _, best => Or.inl rfl
  | k :: rest, i, best => by
      rw [lexArgminAux]
      by_cases hk : lexLt k best.1
      · rw [if_pos hk]
        rcases lexArgminAux_coh rest (i + 1) (k, i) with h | ⟨m, hm, h2, h3⟩
        · refine Or.inr ⟨0, by simp, ?_, ?_⟩
          · rw [h]; simp
          · rw [h]; simp
        · refine Or.inr ⟨m + 1, by simpa using hm, ?_, ?_⟩
          · rw [h2]; omega
          · rw [h3]; rfl
      · rw [if_neg hk]
        rcases lexArgminAux_coh rest (i + 1) best with h | ⟨m, hm, h2, h3⟩
        · exact Or.inl h
        · refine Or.inr ⟨m + 1, by simpa using hm, ?_, ?_⟩
          · rw [h2]; omega
          · rw [h3]; rfl

theorem lexArgmin_spec (keys : List (ℝ × ℝ)) (hne : keys ≠ []) :
    lexArgmin keys < keys.length ∧
    keys.getD (lexArgmin keys) (0, 0)
      = (lexArgminAux keys.tail 1 (keys.headD (0, 0), 0)).1 ∧
    ∀ k ∈ keys, ¬ lexLt k (keys.getD (lexArgmin keys) (0, 0)) := by
  match keys with
  | [] => exact absurd rfl hne
  | k0 :: rest =>
      obtain ⟨hm1, hm2⟩ := lexArgminAux_min rest 1 (k0, 0)
      rcases lexArgminAux_coh rest 1 (k0, 0) with h | ⟨m, hm, h2, h3⟩
      · rw [lexArgmin, h]
        refine ⟨by simp, by simp [h], ?_⟩
        intro k hk
        rcases List.mem_cons.mp hk with hk | hk
        · subst hk
          simpa [h] using hm1
        · have := hm2 k hk
          rw [h] at this
          simpa using this
      · rw [lexArgmin, h2]
        have hgd : (k0 :: rest).getD (1 + m) (0, 0) = rest.getD m (0, 0) := by
          have : 1 + m = m + 1 := by omega
          rw [this]
          rfl
        refine ⟨by simp only [List.length_cons]; omega, ?_, ?_⟩
        · rw [hgd, ← h3]
          rfl
        · intro k hk
          rw [hgd, ← h3]
          rcases List.mem_cons.mp hk with hk | hk
          · exact hk ▸ hm1
          · exact hm2 k hk

theorem lexArgmin_unique (keys : List (ℝ × ℝ)) (t : Nat) (ht : t < keys.length)
    (huniq : ∀ j, j < keys.length → j ≠ t →
      lexLt (keys.getD t (0, 0)) (keys.getD j (0, 0))) :
    lexArgmin keys = t := by
  have hne : keys ≠ [] := by
    intro h
    rw [h] at ht
    simp at ht
  obtain ⟨hlt, _, hmin⟩ := lexArgmin_spec keys hne
  by_contra hne2
  have h1 := huniq (lexArgmin keys) hlt hne2
  have hmem : keys.getD t (0, 0) ∈ keys := by
    rw [List.getD_eq_getElem keys (0, 0) ht]
    exact List.getElem_mem ht
  exact hmin (keys.getD t (0, 0)) hmem h1

/-! ## Claim C3 — winding start vertex -/

theorem map_getD_range (l : List (V3 ℝ)) :
    (List.range l.length).map (fun i => l.getD i v0) = l := by
  apply List.ext_getElem
  · simp
  · intro i h1 h2
    simp only [List.getElem_map, List.getElem_range]
    exact List.getD_eq_getElem l v0 h2

theorem sortedByCompare_length (points : List (V3 ℝ)) (nv : V3 ℝ) :
    (sortedByCompare points nv).length = points.length := by
  rw [sortedByCompare, List.length_map, (pySorted_perm _ _).length_eq, List.length_range]

theorem getD_rotate (l : List (V3 ℝ)) (n j : Nat) (hj : j < l.length) :
    (l.rotate n).getD j v0 = l.getD ((j + n) % l.length) v0 := by
  have hpos : 0 < l.length := lt_of_le_of_lt (Nat.zero_le j) hj
  have hlen : j < (l.rotate n).length := by rw [List.length_rotate]; exact hj
  rw [List.getD_eq_getElem _ v0 hlen, List.getElem_rotate,
    List.getD_eq_getElem l v0 (Nat.mod_lt _ hpos)]

theorem rotate_getD_zero (l : List (V3 ℝ)) (t : Nat) (ht : t < l.length) :
    (l.rotate t).getD 0 v0 = l.getD t v0 := by
  rw [getD_rotate l t 0 (lt_of_le_of_lt (Nat.zero_le t) ht)]
  rw [Nat.zero_add, Nat.mod_eq_of_lt ht]

/-- C3: the winding normalization returns the comparator-sorted vertex list
cyclically rotated by the top-left index, and the vertex it places at position
0 has the lexicographically smallest `(-local_up, right)` key — in the frame
built from the unit normal with the world-up substitution — among all
(centroid-relative) vertices of the surface. -/
theorem claim_C3 (points : List (V3 ℝ)) (nv : V3 ℝ) (hne : points ≠ []) :
    sort_vertices_clockwise points nv
        = (sortedByCompare points nv).rotate
            (get_top_left_corner_from_normal (sortedByCompare points nv) nv) ∧
    ∀ q ∈ sort_vertices_clockwise points nv,
      ¬ lexLt
          (tlKey (frameOf nv).1 (frameOf nv).2 (meanV (sortedByCompare points nv)) q)
          (tlKey (frameOf nv).1 (frameOf nv).2 (meanV (sortedByCompare points nv))
            ((sort_vertices_clockwise points nv).getD 0 v0)) := by
  have hlen : (sortedByCompare points nv).length = points.length :=
    sortedByCompare_length points nv
  have hpos : 0 < points.length := List.length_pos.mpr hne
  refine ⟨rfl, ?_⟩
  intro q hq
  have hkeysne : (sortedByCompare points nv).map
      (tlKey (frameOf nv).1 (frameOf nv).2 (meanV (sortedByCompare points nv))) ≠ [] := by
    intro h
    have h2 : ((sortedByCompare points nv).map
        (tlKey (frameOf nv).1 (frameOf nv).2 (meanV (sortedByCompare points nv)))).length
          = 0 := by rw [h]; rfl
    rw [List.length_map, hlen] at h2
    omega
  obtain ⟨hlt, _, hmin⟩ := lexArgmin_spec _ hkeysne
  have hlt2 : lexArgmin ((sortedByCompare points nv).map
      (tlKey (frameOf nv).1 (frameOf nv).2 (meanV (sortedByCompare points nv))))
        < (sortedByCompare points nv).length := by
    rw [List.length_map] at hlt
    exact hlt
  have htl : get_top_left_corner_from_normal (sortedByCompare points nv) nv
      = lexArgmin ((sortedByCompare points nv).map
          (tlKey (frameOf nv).1 (frameOf nv).2 (meanV (sortedByCompare points nv)))) := rfl
  have hout : sort_vertices_clockwise points nv
      = (sortedByCompare points nv).rotate
          (lexArgmin ((sortedByCompare points nv).map
            (tlKey (frameOf nv).1 (frameOf nv).2 (meanV (sortedByCompare points nv))))) := rfl
  have hhead : (sort_vertices_clockwise points nv).getD 0 v0
      = (sortedByCompare points nv).getD
          (lexArgmin ((sortedByCompare points nv).map
            (tlKey (frameOf nv).1 (frameOf nv).2 (meanV (sortedByCompare points nv))))) v0 := by
    rw [hout]
    exact rotate_getD_zero _ _ hlt2
  have hkeyhead : ((sortedByCompare points nv).map
      (tlKey (frameOf nv).1 (frameOf nv).2 (meanV (sortedByCompare points nv)))).getD
        (lexArgmin ((sortedByCompare points nv).map
          (tlKey (frameOf nv).1 (frameOf nv).2 (meanV (sortedByCompare points nv))))) (0, 0)
      = tlKey (frameOf nv).1 (frameOf nv).2 (meanV (sortedByCompare points nv))
          ((sortedByCompare points nv).getD
            (lexArgmin ((sortedByCompare points nv).map
              (tlKey (frameOf nv).1 (frameOf nv).2 (meanV (sortedByCompare points nv))))) v0) := by
    rw [List.getD_eq_getElem _ (0, 0) hlt, List.getElem_map,
      List.getD_eq_getElem _ v0 hlt2]
  have hqS : q ∈ sortedByCompare points nv := by
    rw [hout] at hq
    exact (List.rotate_perm _ _).subset hq
  have hkq : tlKey (frameOf nv).1 (frameOf nv).2 (meanV (sortedByCompare points nv)) q
      ∈ (sortedByCompare points nv).map
          (tlKey (frameOf nv).1 (frameOf nv).2 (meanV (sortedByCompare points nv))) :=
    List.mem_map_of_mem _ hqS
  rw [hhead, ← hkeyhead]
  exact hmin _ hkq

/-- Witness for C3 at a concrete square floor. -/
theorem claim_C3_witness :
    sort_vertices_clockwise [v0, ⟨0, 1, 0⟩, ⟨1, 1, 0⟩, ⟨1, 0, 0⟩] ⟨0, 0, -1⟩
        = (sortedByCompare [v0, ⟨0, 1, 0⟩, ⟨1, 1, 0⟩, ⟨1, 0, 0⟩] ⟨0, 0, -1⟩).rotate
            (get_top_left_corner_from_normal
              (sortedByCompare [v0, ⟨0, 1, 0⟩, ⟨1, 1, 0⟩, ⟨1, 0, 0⟩] ⟨0, 0, -1⟩) ⟨0, 0, -1⟩) :=
  (claim_C3 [v0, ⟨0, 1, 0⟩, ⟨1, 1, 0⟩, ⟨1, 0, 0⟩] ⟨0, 0, -1⟩ (by simp)).1


theorem normalize3_of_unit (v : V3 ℝ) (h : dot3 v v = 1) : normalize3 v = v := by
  rw [normalize3, norm3, h, Real.sqrt_one, inv_one]
  rcases v with ⟨x, y, z⟩
  simp [smul3]

theorem frame_down : frameOf (⟨0, 0, -1⟩ : V3 ℝ) = (⟨1, 0, 0⟩, ⟨0, -1, 0⟩) := by
  have hn : normalize3 (⟨0, 0, -1⟩ : V3 ℝ) = ⟨0, 0, -1⟩ :=
    normalize3_of_unit ⟨0, 0, -1⟩ (by norm_num [dot3])
  rw [frameOf, hn, worldUpOf]
  rw [if_pos (by norm_num [dot3] : |dot3 (⟨0,0,-1⟩ : V3 ℝ) ⟨0,0,1⟩| > (99:ℝ)/100)]
  rw [if_neg (by norm_num [dot3] : ¬ dot3 (⟨0,0,-1⟩ : V3 ℝ) ⟨0,0,1⟩ > (0:ℝ))]
  rw [show cross3 (⟨0,-1,0⟩ : V3 ℝ) ⟨0,0,-1⟩ = ⟨1,0,0⟩ from by norm_num [cross3, V3.mk.injEq]]
  rw [normalize3_of_unit ⟨1,0,0⟩ (by norm_num [dot3])]
  rw [show cross3 (⟨0,0,-1⟩ : V3 ℝ) ⟨1,0,0⟩ = ⟨0,-1,0⟩ from by norm_num [cross3, V3.mk.injEq]]
  rw [normalize3_of_unit ⟨0,-1,0⟩ (by norm_num [dot3])]

theorem sbc_E1 : sortedByCompare poly4 ⟨0, 0, -1⟩ = poly4 := by
  have hn : normalize3 (⟨0, 0, -1⟩ : V3 ℝ) = ⟨0, 0, -1⟩ :=
    normalize3_of_unit ⟨0, 0, -1⟩ (by norm_num [dot3])
  have hm : meanV poly4 = ⟨-1/2, 3/4, 0⟩ := by
    norm_num [meanV, poly4, vsum, smul3, V3.mk.injEq]
  rw [sortedByCompare]
  simp only [hn, hm]
  rw [show List.range poly4.length = [0, 1, 2, 3] from by decide]
  norm_num [pySorted, countRun, ascRun, descRun, binInsertAll, binSearchPos,
    comparePoints, poly4, vsub, cross3, dot3, v0, List.getD]

theorem tl_E1 : get_top_left_corner_from_normal poly4 ⟨0, 0, -1⟩ = 1 := by
  have hm : meanV poly4 = ⟨-1/2, 3/4, 0⟩ := by
    norm_num [meanV, poly4, vsum, smul3, V3.mk.injEq]
  rw [get_top_left_corner_from_normal, frame_down, hm]
  norm_num [poly4, tlKey, vsub, dot3, lexArgmin, lexArgminAux, lexLt]

theorem E1 : sort_vertices_clockwise poly4 ⟨0, 0, -1⟩
    = [⟨-2, -2, 0⟩, ⟨-1, 2, 0⟩, ⟨0, 1, 0⟩, ⟨1, 2, 0⟩] := by
  rw [sort_vertices_clockwise, sbc_E1, tl_E1]
  rw [List.rotate_eq_drop_append_take (by norm_num [poly4])]
  norm_num [poly4]

theorem sbc_E2 : sortedByCompare [⟨-2, -2, 0⟩, ⟨-1, 2, 0⟩, ⟨0, 1, 0⟩, ⟨1, 2, 0⟩] ⟨0, 0, -1⟩
    = [⟨-2, -2, 0⟩, ⟨-1, 2, 0⟩, ⟨1, 2, 0⟩, ⟨0, 1, 0⟩] := by
  have hn : normalize3 (⟨0, 0, -1⟩ : V3 ℝ) = ⟨0, 0, -1⟩ :=
    normalize3_of_unit ⟨0, 0, -1⟩ (by norm_num [dot3])
  have hm : meanV [(⟨-2, -2, 0⟩ : V3 ℝ), ⟨-1, 2, 0⟩, ⟨0, 1, 0⟩, ⟨1, 2, 0⟩]
      = ⟨-1/2, 3/4, 0⟩ := by
    norm_num [meanV, vsum, smul3, V3.mk.injEq]
  rw [sortedByCompare]
  simp only [hn, hm]
  rw [show List.range ([(⟨-2, -2, 0⟩ : V3 ℝ), ⟨-1, 2, 0⟩, ⟨0, 1, 0⟩, ⟨1, 2, 0⟩].length)
      = [0, 1, 2, 3] from by decide]
  set f := fun i j => comparePoints (⟨0, 0, -1⟩ : V3 ℝ) ⟨-1/2, 3/4, 0⟩
    ([(⟨-2, -2, 0⟩ : V3 ℝ), ⟨-1, 2, 0⟩, ⟨0, 1, 0⟩, ⟨1, 2, 0⟩].getD i v0)
    ([(⟨-2, -2, 0⟩ : V3 ℝ), ⟨-1, 2, 0⟩, ⟨0, 1, 0⟩, ⟨1, 2, 0⟩].getD j v0) with hf
  have c10 : f 1 0 = 1 := by
    simp only [hf]
    norm_num [comparePoints, vsub, cross3, dot3, v0, List.getD]
  have c21 : f 2 1 = 1 := by
    simp only [hf]
    norm_num [comparePoints, vsub, cross3, dot3, v0, List.getD]
  have c32 : f 3 2 = -1 := by
    simp only [hf]
    norm_num [comparePoints, vsub, cross3, dot3, v0, List.getD]
  have c31 : f 3 1 = 1 := by
    simp only [hf]
    norm_num [comparePoints, vsub, cross3, dot3, v0, List.getD]
  have hcr : countRun f [0, 1, 2, 3] = ([0, 1, 2], [3]) := by
    rw [countRun, c10, if_neg (by decide : ¬ (1 : Int) < 0)]
    rw [ascRun, c21, if_neg (by decide : ¬ (1 : Int) < 0)]
    rw [ascRun, c32, if_pos (by decide : (-1 : Int) < 0)]
  have hbs : binSearchPos f 3 [0, 1, 2] 0 3 = 2 := by
    rw [binSearchPos, dif_pos (by decide : (0 : Nat) < 3)]
    norm_num [List.getD]
    rw [c31, if_neg (by decide : ¬ (1 : Int) < 0)]
    rw [binSearchPos, dif_pos (by decide : (2 : Nat) < 3)]
    norm_num [List.getD]
    rw [c32, if_pos (by decide : (-1 : Int) < 0)]
    rw [binSearchPos, dif_neg (by decide : ¬ (2 : Nat) < 2)]
  rw [pySorted, hcr]
  rw [binInsertAll]
  rw [show ([0, 1, 2] : List Nat).length = 3 from rfl, hbs]
  rw [show List.insertIdx 2 3 [0, 1, 2] = [0, 1, 3, 2] from by decide]
  rw [binInsertAll]
  norm_num [v0, List.getD]

theorem tl_E2 : get_top_left_corner_from_normal
    [⟨-2, -2, 0⟩, ⟨-1, 2, 0⟩, ⟨1, 2, 0⟩, ⟨0, 1, 0⟩] ⟨0, 0, -1⟩ = 0 := by
  have hm : meanV [(⟨-2, -2, 0⟩ : V3 ℝ), ⟨-1, 2, 0⟩, ⟨1, 2, 0⟩, ⟨0, 1, 0⟩]
      = ⟨-1/2, 3/4, 0⟩ := by
    norm_num [meanV, vsum, smul3, V3.mk.injEq]
  rw [get_top_left_corner_from_normal, frame_down, hm]
  norm_num [tlKey, vsub, dot3, lexArgmin, lexArgminAux, lexLt]

theorem E2 : sort_vertices_clockwise [⟨-2, -2, 0⟩, ⟨-1, 2, 0⟩, ⟨0, 1, 0⟩, ⟨1, 2, 0⟩] ⟨0, 0, -1⟩
    = [⟨-2, -2, 0⟩, ⟨-1, 2, 0⟩, ⟨1, 2, 0⟩, ⟨0, 1, 0⟩] := by
  rw [sort_vertices_clockwise, sbc_E2, tl_E2, List.rotate_zero]

/-- C4, refutation.  The winding normalization is neither
presentation-independent nor idempotent: for the simple planar quadrilateral
`poly4` under the downward normal, canonicalizing the vertex list rotated by
one gives a different output than canonicalizing the original list, and
canonicalizing the canonical output changes it again. -/
theorem claim_C4_counterexample :
    sort_vertices_clockwise (poly4.rotate 1) ⟨0, 0, -1⟩
        ≠ sort_vertices_clockwise poly4 ⟨0, 0, -1⟩ ∧
    sort_vertices_clockwise (sort_vertices_clockwise poly4 ⟨0, 0, -1⟩) ⟨0, 0, -1⟩
        ≠ sort_vertices_clockwise poly4 ⟨0, 0, -1⟩ := by
  have hrot : poly4.rotate 1 = [⟨-2, -2, 0⟩, ⟨-1, 2, 0⟩, ⟨0, 1, 0⟩, ⟨1, 2, 0⟩] := by
    rw [List.rotate_eq_drop_append_take (by norm_num [poly4])]
    norm_num [poly4]
  refine ⟨?_, ?_⟩
  · rw [hrot, E2, E1]
    norm_num [V3.mk.injEq]
  · rw [E1, E2]
    norm_num [V3.mk.injEq]

theorem vsum_perm {l l' : List (V3 ℝ)} (h : List.Perm l l') : vsum l = vsum l' := by
  rw [vsum, vsum, (h.map V3.x).sum_eq, (h.map V3.y).sum_eq, (h.map V3.z).sum_eq]

theorem meanV_perm {l l' : List (V3 ℝ)} (h : List.Perm l l') : meanV l = meanV l' := by
  rw [meanV, meanV, vsum_perm h, h.length_eq]

theorem meanV_rotate (l : List (V3 ℝ)) (k : Nat) : meanV (l.rotate k) = meanV l :=
  meanV_perm (l.rotate_perm k)

theorem getD_map_key (f : V3 ℝ → ℝ × ℝ) (M : List (V3 ℝ)) (j : Nat) (hj : j < M.length) :
    (M.map f).getD j (0, 0) = f (M.getD j v0) := by
  have hj2 : j < (M.map f).length := by simpa using hj
  rw [List.getD_eq_getElem _ _ hj2, List.getElem_map, List.getD_eq_getElem _ _ hj]

theorem sortedByCompare_of_cyclicAsc (L : List (V3 ℝ)) (nv : V3 ℝ)
    (hA : cyclicAsc L nv) (k : Nat) :
    sortedByCompare (L.rotate k) nv = L.rotate k := by
  have hch : List.Chain'
      (fun a b => ¬ comparePoints (normalize3 nv) (meanV (L.rotate k))
          ((L.rotate k).getD b v0) ((L.rotate k).getD a v0) < 0)
      (List.range (L.rotate k).length) := by
    rw [List.chain'_iff_get]
    intro i hi
    simp only [List.length_range, List.length_rotate] at hi
    simp only [List.get_eq_getElem, List.getElem_range]
    rw [meanV_rotate]
    rw [getD_rotate L k (i + 1) (by omega)]
    rw [getD_rotate L k i (by omega)]
    have hn0 : 0 < L.length := by omega
    have h := hA ((i + k) % L.length) (Nat.mod_lt _ hn0)
    have heq : ((i + k) % L.length + 1) % L.length = (i + 1 + k) % L.length := by
      rw [Nat.mod_add_mod]
      congr 1
      omega
    rw [heq] at h
    exact h
  rw [sortedByCompare,
    pySorted_of_chain
      (fun i j => comparePoints (normalize3 nv) (meanV (L.rotate k))
        ((L.rotate k).getD i v0) ((L.rotate k).getD j v0))
      (List.range (L.rotate k).length) hch]
  exact map_getD_range (L.rotate k)

theorem tl_of_rotate (L : List (V3 ℝ)) (nv : V3 ℝ) (t k : Nat) (ht : t < L.length)
    (huniq : ∀ j, j < L.length → j ≠ t →
      lexLt (tlKey (frameOf nv).1 (frameOf nv).2 (meanV L) (L.getD t v0))
            (tlKey (frameOf nv).1 (frameOf nv).2 (meanV L) (L.getD j v0))) :
    get_top_left_corner_from_normal (L.rotate k) nv
      = (t + L.length - k % L.length) % L.length := by
  have hn0 : 0 < L.length := lt_of_le_of_lt (Nat.zero_le t) ht
  have hjklt : (t + L.length - k % L.length) % L.length < L.length := Nat.mod_lt _ hn0
  have hkr : k % L.length < L.length := Nat.mod_lt _ hn0
  have hjkk : ((t + L.length - k % L.length) % L.length + k) % L.length = t := by
    rw [Nat.mod_add_mod]
    obtain ⟨q, hq⟩ : ∃ q, k = L.length * q + k % L.length :=
      ⟨k / L.length, (Nat.div_add_mod k L.length).symm⟩
    have h1 : t + L.length - k % L.length + k = t + L.length + L.length * q := by omega
    rw [h1, Nat.add_mul_mod_self_left, Nat.add_mod_right, Nat.mod_eq_of_lt ht]
  rw [get_top_left_corner_from_normal]
  apply lexArgmin_unique _ ((t + L.length - k % L.length) % L.length)
  · simpa [List.length_rotate] using hjklt
  · intro j hj hne
    have hjn : j < L.length := by simpa [List.length_rotate] using hj
    rw [getD_map_key _ _ _ (by simpa [List.length_rotate] using hjklt),
        getD_map_key _ _ _ (by simpa [List.length_rotate] using hjn),
        meanV_rotate,
        getD_rotate L k _ hjklt, getD_rotate L k j hjn, hjkk]
    apply huniq
    · exact Nat.mod_lt _ hn0
    · intro hcon
      apply hne
      have hmodeq : (j + k) % L.length
          = ((t + L.length - k % L.length) % L.length + k) % L.length := by
        rw [hjkk, hcon]
      have hjj : j % L.length = (t + L.length - k % L.length) % L.length % L.length :=
        Nat.ModEq.add_right_cancel' k hmodeq
      rw [Nat.mod_eq_of_lt hjn, Nat.mod_eq_of_lt hjklt] at hjj
      exact hjj

/-- C4, amended.  On the class of inputs where the comparator is actually
consistent along the cycle — vertex lists that are cyclically ascending for
`compare_points` (e.g. convex polygons listed in winding order) with a unique
top-left key — the winding normalization is presentation-independent over all
cyclic rotations of the list and its output is a fixed point: every rotation
canonicalizes to the same list `L.rotate t` (where `t` is the top-left index),
and in particular re-running the canonicalization on its own output (the case
`k = t`) returns it unchanged. -/
theorem claim_C4_amended (L : List (V3 ℝ)) (nv : V3 ℝ) (t : Nat) (ht : t < L.length)
    (hA : cyclicAsc L nv)
    (huniq : ∀ j, j < L.length → j ≠ t →
      lexLt (tlKey (frameOf nv).1 (frameOf nv).2 (meanV L) (L.getD t v0))
            (tlKey (frameOf nv).1 (frameOf nv).2 (meanV L) (L.getD j v0))) :
    ∀ k, sort_vertices_clockwise (L.rotate k) nv = L.rotate t := by
  intro k
  have hn0 : 0 < L.length := lt_of_le_of_lt (Nat.zero_le t) ht
  rw [sort_vertices_clockwise, sortedByCompare_of_cyclicAsc L nv hA k,
      tl_of_rotate L nv t k ht huniq, List.rotate_rotate]
  have harith : (k + (t + L.length - k % L.length) % L.length) % L.length = t := by
    rw [Nat.add_mod_mod]
    obtain ⟨q, hq⟩ : ∃ q, k = L.length * q + k % L.length :=
      ⟨k / L.length, (Nat.div_add_mod k L.length).symm⟩
    have hkr : k % L.length < L.length := Nat.mod_lt _ hn0
    have h1 : k + (t + L.length - k % L.length) = t + L.length + L.length * q := by omega
    rw [h1, Nat.add_mul_mod_self_left, Nat.add_mod_right, Nat.mod_eq_of_lt ht]
  conv_lhs => rw [← List.rotate_mod]
  rw [harith]

theorem claim_C4_amended_witness :
    sort_vertices_clockwise (sq4.rotate 2) ⟨0, 0, -1⟩ = sq4 := by
  have hn : normalize3 (⟨0, 0, -1⟩ : V3 ℝ) = ⟨0, 0, -1⟩ :=
    normalize3_of_unit ⟨0, 0, -1⟩ (by norm_num [dot3])
  have hm : meanV sq4 = ⟨1/2, 1/2, 0⟩ := by
    norm_num [meanV, sq4, vsum, smul3, V3.mk.injEq]
  have hlen : sq4.length = 4 := by norm_num [sq4]
  have hA : cyclicAsc sq4 ⟨0, 0, -1⟩ := by
    intro i hi
    rw [hn, hm, hlen] at *
    rw [hlen] at hi
    interval_cases i <;>
      norm_num [comparePoints, sq4, vsub, cross3, dot3, v0, List.getD]
  have hu : ∀ j, j < sq4.length → j ≠ 0 →
      lexLt (tlKey (frameOf ⟨0, 0, -1⟩).1 (frameOf ⟨0, 0, -1⟩).2 (meanV sq4) (sq4.getD 0 v0))
            (tlKey (frameOf ⟨0, 0, -1⟩).1 (frameOf ⟨0, 0, -1⟩).2 (meanV sq4) (sq4.getD j v0)) := by
    intro j hj hne
    rw [hlen] at hj
    rw [frame_down, hm]
    interval_cases j <;>
      first
        | exact absurd rfl hne
        | norm_num [tlKey, sq4, vsub, dot3, v0, List.getD, lexLt]
  have h := claim_C4_amended sq4 ⟨0, 0, -1⟩ 0 (by norm_num [sq4]) hA hu
  simpa using h 2

end IDF
